import Mathlib

/-!
Verification of the classification-and-placement engine of `organizer.py`.

The development shallowly embeds the program:
* the static configuration tables `EXTENSION_MAP` and `FILE_TYPE_KEYWORDS`;
* the path helpers of `pathlib` that the program uses (`name`, `stem`,
  `suffix`, `parent`), modelled on plain strings;
* `_get_category_by_file_command` (the external `file` invocation is an
  oracle `Option String`: `none` models the subprocess raising, `some out`
  models the verbose output that the code lower-cases and scans);
* `_get_category_by_extension`, `_resolve_conflict`, `_process_file`,
  `organize`, with the filesystem as an explicit state: a finite list of
  existing regular-file paths and a finite list of existing directories.

The unbounded `while True` of `_resolve_conflict` is embedded with fuel;
the termination theorem shows that fuel `|fs| + 1` always suffices, which
is exactly the source's implicit assumption that the directory holds only
finitely many files.
-/

/-- The static extension table of `organizer.py` (`EXTENSION_MAP`), in its
declared order. -/
def EXTENSION_MAP : List (String × List String) :=
  [("Images", [".jpg", ".jpeg", ".png", ".gif", ".bmp", ".tiff", ".webp"]),
   ("Documents", [".pdf", ".docx", ".doc", ".txt", ".xlsx", ".pptx", ".md"]),
   ("Archives", [".zip", ".tar", ".gz", ".rar", ".7z"]),
   ("Videos", [".mp4", ".mkv", ".avi", ".mov"]),
   ("Music", [".mp3", ".wav", ".aac", ".flac"]),
   ("Code", [".py", ".js", ".html", ".css", ".cpp", ".java", ".sh"]),
   ("Executables", [".exe", ".msi", ".deb", ".apk", ".bin", ".appimage"]),
   ("Others", [])]

/-- The static content-keyword table of `organizer.py`
(`FILE_TYPE_KEYWORDS`), in its declared order. -/
def FILE_TYPE_KEYWORDS : List (String × List String) :=
  [("Executables", ["ELF", "executable", "PE32", "Mach-O"]),
   ("Documents", ["PDF", "Microsoft", "Word", "Excel", "PowerPoint", "Rich Text"]),
   ("Archives", ["archive", "compressed", "gzip", "bzip2"]),
   ("Images", ["image", "bitmap", "JPEG", "PNG"]),
   ("Videos", ["video", "AVI", "MP4", "Matroska"]),
   ("Music", ["audio", "MPEG ADTS", "FLAC", "WAV", "MP3"]),
   ("Code", ["ASCII text", "script", "source"])]

/-- The closed set of category names (the keys of `EXTENSION_MAP`). -/
def categoryNames : List String :=
  ["Images", "Documents", "Archives", "Videos", "Music", "Code", "Executables", "Others"]

/-- Index of the last occurrence of a character in a character list
(Python's `str.rfind`, as an `Option`). -/
def lastIdxOf (c : Char) : List Char → Option Nat
  | [] => none
  | a :: rest =>
    match lastIdxOf c rest with
    | some i => some (i + 1)
    | none => if a = c then some 0 else none

/-- `pathlib.PurePath.name`: the final path component. -/
def baseName (p : String) : String :=
  match lastIdxOf '/' p.toList with
  | some i => ⟨p.toList.drop (i + 1)⟩
  | none => p

/-- `pathlib.PurePath.parent`, as a string (`.` when there is no slash). -/
def parentOf (p : String) : String :=
  match lastIdxOf '/' p.toList with
  | some i => ⟨p.toList.take i⟩
  | none => "."

/-- `pathlib.PurePath.stem`: the final component without its extension.
CPython keeps the whole name unless the last dot index `i` satisfies
`0 < i < len(name) - 1`. -/
def stemOf (p : String) : String :=
  let n := (baseName p).toList
  match lastIdxOf '.' n with
  | some i => if 0 < i ∧ i + 1 < n.length then ⟨n.take i⟩ else ⟨n⟩
  | none => ⟨n⟩

/-- `pathlib.PurePath.suffix`: the extension of the final component,
including the leading dot, under the same CPython condition as `stemOf`. -/
def suffixOf (p : String) : String :=
  let n := (baseName p).toList
  match lastIdxOf '.' n with
  | some i => if 0 < i ∧ i + 1 < n.length then ⟨n.drop i⟩ else ""
  | none => ""

/-- Python's `str.startswith('.')`. -/
def startsWithDot (s : String) : Bool :=
  match s.toList with
  | '.' :: _ => true
  | _ => false

/-- Substring test on character lists (Python's `in` on strings). -/
def containsSubChars (needle : List Char) : List Char → Bool
  | [] => needle.isEmpty
  | c :: rest => needle.isPrefixOf (c :: rest) || containsSubChars needle rest

/-- Python's `sub in s` for strings. -/
def containsSub (sub s : String) : Bool :=
  containsSubChars sub.toList s.toList

/-- Python's `str.lower()`: lower-case every character (structural over
the character list, so that the kernel can evaluate it). -/
def toLowerStr (s : String) : String :=
  ⟨s.toList.map Char.toLower⟩

/-- The inner double loop of `_get_category_by_file_command` (lines
103-106): first category, in declared order, one of whose lower-cased
keywords occurs in the (already lower-cased) output. -/
def keywordMatch : List (String × List String) → String → Option String
  | [], _ => none
  | (cat, kws) :: rest, out =>
    if kws.any (fun kw => containsSub (toLowerStr kw) out) then some cat
    else keywordMatch rest out

/-- `FileOrganizer._get_category_by_file_command`: the external `file`
invocation is the oracle argument; `none` models the `except` branch
(subprocess failure), `some raw` the captured verbose output, which the
code lower-cases before keyword scanning. Either way the function itself
never raises; it yields `none` when classification is inconclusive. -/
def get_category_by_file_command (sniffOut : Option String) : Option String :=
  match sniffOut with
  | none => none
  | some raw => keywordMatch FILE_TYPE_KEYWORDS (toLowerStr raw)

/-- The extension lookup loop of `_get_category_by_extension`
(lines 113-115). -/
def lookupExt : List (String × List String) → String → Option String
  | [], _ => none
  | (cat, exts) :: rest, ext =>
    if ext ∈ exts then some cat else lookupExt rest ext

/-- `FileOrganizer._get_category_by_extension`: first table entry whose
extension list contains `ext`, else `"Others"`. -/
def get_category_by_extension (ext : String) : String :=
  (lookupExt EXTENSION_MAP ext).getD "Others"

/-- The two-tier classification of `_process_file` lines 79-81: content
tier first, extension tier (on the lower-cased suffix) when the content
tier is inconclusive. Total by construction. -/
def classify (sniffOut : Option String) (filePath : String) : String :=
  match get_category_by_file_command sniffOut with
  | some c => c
  | none => get_category_by_extension (toLowerStr (suffixOf filePath))


/-- Decimal digit characters of `n`, most significant first, by structural
recursion on a fuel bound (`n` itself always suffices, since `n / 10 < n`
for positive `n`). Empty for `n = 0`. -/
def decCharsAux : Nat → Nat → List Char
  | _, 0 => []
  | 0, _ + 1 => []
  | fuel + 1, n + 1 => decCharsAux fuel ((n + 1) / 10) ++ [Nat.digitChar ((n + 1) % 10)]

/-- Decimal rendering of a natural number, as produced by Python's
`str(count)` in the f-string `f"{base}_{count}{ext}"` of
`_resolve_conflict`. -/
def decString (n : Nat) : String :=
  if n = 0 then "0" else ⟨decCharsAux n n⟩


/-- The probe name `f"{base}_{count}{ext}"` joined to the destination's
parent folder (lines 126-127 of `organizer.py`). -/
def probeName (parent stem ext : String) (count : Nat) : String :=
  parent ++ "/" ++ stem ++ "_" ++ decString count ++ ext

/-- The `while True` loop of `_resolve_conflict` (lines 124-130), with an
explicit fuel bound: probe `stem_count.ext`, `stem_(count+1).ext`, ... and
return the first probe that does not exist. `none` means the fuel ran out;
the termination theorems show that fuel `|existing paths| + 1` never runs
out. `ex` is the filesystem existence test (`Path.exists`). -/
def resolveLoop (ex : String → Bool) (parent stem ext : String) : Nat → Nat → Option String
  | _, 0 => none
  | count, fuel + 1 =>
    if ex (probeName parent stem ext count) then
      resolveLoop ex parent stem ext (count + 1) fuel
    else some (probeName parent stem ext count)

/-- `FileOrganizer._resolve_conflict`: the destination is
`parent/name`; if it does not exist it is returned unchanged, otherwise
the suffix-probing loop runs starting at count 1, on the stem and suffix
of the destination. -/
def resolve_conflict (ex : String → Bool) (parent name : String) (fuel : Nat) : Option String :=
  if ex (parent ++ "/" ++ name) then
    resolveLoop ex parent (stemOf name) (suffixOf name) 1 fuel
  else some (parent ++ "/" ++ name)

/-- The filesystem state: the finite set of existing regular files and the
finite set of existing directories, as full path strings. -/
structure FS where
  files : List String
  dirs : List String
deriving DecidableEq

/-- `Path.exists`: the path is a regular file or a directory. -/
def FS.existsPath (fs : FS) (p : String) : Bool :=
  decide (p ∈ fs.files) || decide (p ∈ fs.dirs)

/-- The log records the engine emits (§6 of the design): run start, fatal
precondition error, hidden-file skip, content-sniff warning, would-be move
(dry-run), completed move, and per-file failure. -/
inductive LogRecord where
  | startRun (target : String) (dryRun : Bool)
  | errorTarget (target : String)
  | skipHidden (name : String)
  | warnSniff (name : String)
  | dryRunMove (name : String) (dest : String)
  | moved (name : String) (dest : String)
  | failed (entry : String)
deriving DecidableEq

/-- Result of processing one file: the filesystem after the step
(including partial effects when the step failed), the records logged, and
whether an exception escaped the step (to be caught by `organize`). -/
structure StepResult where
  fs : FS
  log : List LogRecord
  err : Bool
deriving DecidableEq

/-- `FileOrganizer._process_file`. `sniff` is the oracle for the external
`file` command (`none` = the subprocess raised). Exceptions are modelled
by `err := true` with the partial filesystem effects kept:
`mkdir(exist_ok=True)` raises when the folder path is occupied by a
regular file, and `shutil.move` raises when the source is gone. The
`resolve_conflict` fuel is one more than the number of existing paths,
which the termination theorems show can never be exhausted. -/
def process_file (sniff : String → Option String) (dryRun : Bool)
    (targetDir : String) (fs : FS) (filePath : String) : StepResult :=
  let name := baseName filePath
  if startsWithDot name then
    ⟨fs, [.skipHidden name], false⟩
  else
    let sniffLog : List LogRecord :=
      match sniff filePath with
      | none => [.warnSniff name]
      | some _ => []
    let category := classify (sniff filePath) filePath
    let destFolder := targetDir ++ "/" ++ category
    if destFolder ∈ fs.files then
      ⟨fs, sniffLog, true⟩
    else
      let fs1 : FS := if destFolder ∈ fs.dirs then fs else ⟨fs.files, destFolder :: fs.dirs⟩
      match resolve_conflict fs1.existsPath destFolder name
          (fs1.files.length + fs1.dirs.length + 1) with
      | none => ⟨fs1, sniffLog, true⟩
      | some newPath =>
        if dryRun then
          ⟨fs1, sniffLog ++ [.dryRunMove name newPath], false⟩
        else if filePath ∈ fs1.files then
          ⟨⟨newPath :: fs1.files.erase filePath, fs1.dirs⟩,
            sniffLog ++ [.moved name newPath], false⟩
        else ⟨fs1, sniffLog, true⟩

/-- One iteration of the `organize` loop (lines 67-72): the `is_file`
filter, the call to `_process_file`, and the `except` clause that turns a
per-file exception into a `failed` record without stopping the loop. -/
def organize_step (sniff : String → Option String) (dryRun : Bool)
    (targetDir : String) (fs : FS) (entry : String) : FS × List LogRecord :=
  if entry ∈ fs.files then
    let r := process_file sniff dryRun targetDir fs entry
    (r.fs, r.log ++ if r.err then [.failed entry] else [])
  else (fs, [])

/-- The `for entry in self.target_dir.iterdir()` loop of `organize`. -/
def organize_loop (sniff : String → Option String) (dryRun : Bool)
    (targetDir : String) : List String → FS → FS × List LogRecord
  | [], fs => (fs, [])
  | e :: rest, fs =>
    let r := organize_step sniff dryRun targetDir fs e
    let r2 := organize_loop sniff dryRun targetDir rest r.1
    (r2.1, r.2 ++ r2.2)

/-- `iterdir` on the snapshot: the immediate children of the target
directory, files first then directories (the enumeration order is
OS-dependent; the model fixes one). -/
def entry_list (targetDir : String) (fs : FS) : List String :=
  (fs.files ++ fs.dirs).filter (fun p => parentOf p == targetDir)

/-- `FileOrganizer.organize`: the precondition check of lines 61-63
(`exists()` and `is_dir()`), then the per-entry loop. Total: no exception
ever propagates to the caller. -/
def organize (sniff : String → Option String) (dryRun : Bool)
    (targetDir : String) (fs : FS) : FS × List LogRecord :=
  if ¬ (fs.existsPath targetDir = true) ∨ targetDir ∉ fs.dirs then
    (fs, [.errorTarget targetDir])
  else
    let r := organize_loop sniff dryRun targetDir (entry_list targetDir fs) fs
    (r.1, .startRun targetDir dryRun :: r.2)

/-- Destination named in the first move-describing record of a log, if
any: used to compare the decisions of dry-run and apply mode. -/
def destOfLog : List LogRecord → Option String
  | [] => none
  | .dryRunMove _ d :: _ => some d
  | .moved _ d :: _ => some d
  | _ :: rest => destOfLog rest

example : suffixOf "t/photo.JPG" = ".JPG" := by rfl
example : stemOf "t/archive.tar.gz" = "archive.tar" := by rfl
example : baseName "t/.secret" = ".secret" := by rfl
example : suffixOf "t/.secret" = "" := by rfl
example : classify (some "PDF document, version 1.4") "t/report" = "Documents" := by decide
example : classify none "t/photo.JPG" = "Images" := by decide
example : classify none "t/archive.xyz" = "Others" := by decide
example : decString 0 = "0" := by rfl
example : decString 12 = "12" := by rfl
example : decString 105 = "105" := by rfl
example :
    process_file (fun _ => some "data") false "t"
        ⟨["t/a.txt", "t/Documents/a.txt"], ["t", "t/Documents"]⟩ "t/a.txt" =
      ⟨⟨["t/Documents/a_1.txt", "t/Documents/a.txt"], ["t", "t/Documents"]⟩,
        [.moved "a.txt" "t/Documents/a_1.txt"], false⟩ := by decide

lemma decCharsAux_eq : ∀ fuel n, n ≤ fuel →
    decCharsAux fuel n = ((Nat.digits 10 n).map Nat.digitChar).reverse := by
  intro fuel
  induction fuel with
  | zero =>
    intro n hn
    have hn0 : n = 0 := by omega
    subst hn0
    simp [decCharsAux]
  | succ f ih =>
    intro n hn
    cases n with
    | zero => simp [decCharsAux]
    | succ m =>
      have hdiv : (m + 1) / 10 ≤ f := by
        have : (m + 1) / 10 < m + 1 := Nat.div_lt_self (Nat.succ_pos m) (by norm_num)
        omega
      rw [show decCharsAux (f + 1) (m + 1) =
            decCharsAux f ((m + 1) / 10) ++ [Nat.digitChar ((m + 1) % 10)] from rfl]
      rw [ih _ hdiv, Nat.digits_def' (by norm_num : (1 : Nat) < 10) (Nat.succ_pos m)]
      simp

lemma digitChar_inj {a b : Nat} (ha : a < 10) (hb : b < 10) :
    Nat.digitChar a = Nat.digitChar b → a = b := by
  interval_cases a <;> interval_cases b <;> decide

lemma map_digitChar_inj : ∀ (l1 l2 : List Nat), (∀ x ∈ l1, x < 10) → (∀ x ∈ l2, x < 10) →
    l1.map Nat.digitChar = l2.map Nat.digitChar → l1 = l2 := by
  intro l1
  induction l1 with
  | nil =>
    intro l2 _ _ h
    cases l2 with
    | nil => rfl
    | cons b t2 => simp at h
  | cons a t ih =>
    intro l2 h1 h2 h
    cases l2 with
    | nil => simp at h
    | cons b t2 =>
      simp only [List.map_cons, List.cons.injEq] at h
      have hab : a = b := digitChar_inj (h1 a (by simp)) (h2 b (by simp)) h.1
      have ht : t = t2 :=
        ih t2 (fun x hx => h1 x (by simp [hx])) (fun x hx => h2 x (by simp [hx])) h.2
      rw [hab, ht]

lemma decString_inj {k1 k2 : Nat} (h1 : 1 ≤ k1) (h2 : 1 ≤ k2)
    (h : decString k1 = decString k2) : k1 = k2 := by
  unfold decString at h
  rw [if_neg (by omega), if_neg (by omega)] at h
  have hchars : decCharsAux k1 k1 = decCharsAux k2 k2 := congrArg String.data h
  rw [decCharsAux_eq k1 k1 le_rfl, decCharsAux_eq k2 k2 le_rfl] at hchars
  have h3 : (Nat.digits 10 k1).map Nat.digitChar = (Nat.digits 10 k2).map Nat.digitChar :=
    List.reverse_injective hchars
  have h4 : Nat.digits 10 k1 = Nat.digits 10 k2 :=
    map_digitChar_inj _ _ (fun d hd => Nat.digits_lt_base (by norm_num) hd)
      (fun d hd => Nat.digits_lt_base (by norm_num) hd) h3
  exact Nat.digits_inj_iff.mp h4

lemma probeName_inj (parent stem ext : String) {k1 k2 : Nat}
    (h1 : 1 ≤ k1) (h2 : 1 ≤ k2)
    (h : probeName parent stem ext k1 = probeName parent stem ext k2) : k1 = k2 := by
  unfold probeName at h
  have hd := congrArg String.data h
  simp only [String.data_append] at hd
  have hmid : (decString k1).data = (decString k2).data :=
    List.append_cancel_left (List.append_cancel_right hd)
  exact decString_inj h1 h2 (String.ext hmid)

lemma resolveLoop_some (ex : String → Bool) (parent stem ext : String) :
    ∀ (fuel count : Nat) (p : String), resolveLoop ex parent stem ext count fuel = some p →
      ∃ k, count ≤ k ∧ p = probeName parent stem ext k ∧
        ex (probeName parent stem ext k) = false ∧
        ∀ j, count ≤ j → j < k → ex (probeName parent stem ext j) = true := by
  intro fuel
  induction fuel with
  | zero => intro count p h; simp [resolveLoop] at h
  | succ f ih =>
    intro count p h
    simp only [resolveLoop] at h
    by_cases hex : ex (probeName parent stem ext count) = true
    · rw [if_pos hex] at h
      obtain ⟨k, hk1, hk2, hk3, hk4⟩ := ih (count + 1) p h
      refine ⟨k, by omega, hk2, hk3, fun j hj1 hj2 => ?_⟩
      rcases Nat.eq_or_lt_of_le hj1 with heq | hlt
      · rw [← heq]; exact hex
      · exact hk4 j hlt hj2
    · rw [if_neg hex] at h
      refine ⟨count, le_rfl, (Option.some.inj h).symm, by simpa using hex, ?_⟩
      intro j hj1 hj2
      omega

lemma resolveLoop_none (ex : String → Bool) (parent stem ext : String) :
    ∀ (fuel count : Nat), resolveLoop ex parent stem ext count fuel = none →
      ∀ i, i < fuel → ex (probeName parent stem ext (count + i)) = true := by
  intro fuel
  induction fuel with
  | zero => intro count _ i hi; omega
  | succ f ih =>
    intro count h i hi
    simp only [resolveLoop] at h
    by_cases hex : ex (probeName parent stem ext count) = true
    · rw [if_pos hex] at h
      cases i with
      | zero => simpa using hex
      | succ j =>
        have := ih (count + 1) h j (by omega)
        rw [show count + (j + 1) = count + 1 + j by omega]
        exact this
    · rw [if_neg hex] at h
      exact absurd h (by simp)

lemma resolveLoop_total (fs : List String) (parent stem ext : String) :
    ∃ p, resolveLoop (fun q => decide (q ∈ fs)) parent stem ext 1 (fs.length + 1) = some p := by
  cases h : resolveLoop (fun q => decide (q ∈ fs)) parent stem ext 1 (fs.length + 1) with
  | some p => exact ⟨p, rfl⟩
  | none =>
    exfalso
    have hmem : ∀ i, i < fs.length + 1 → probeName parent stem ext (1 + i) ∈ fs := by
      intro i hi
      have := resolveLoop_none _ parent stem ext (fs.length + 1) 1 h i hi
      simpa using this
    have hnodup : ((List.range (fs.length + 1)).map
        (fun i => probeName parent stem ext (1 + i))).Nodup := by
      refine (List.nodup_range _).map_on ?_
      intro x _ y _ hxy
      have := probeName_inj parent stem ext
        (show 1 ≤ 1 + x by omega) (show 1 ≤ 1 + y by omega) hxy
      omega
    have hsub : ((List.range (fs.length + 1)).map
        (fun i => probeName parent stem ext (1 + i))) ⊆ fs := by
      intro x hx
      simp only [List.mem_map, List.mem_range] at hx
      obtain ⟨i, hi, rfl⟩ := hx
      exact hmem i hi
    have hlen := (List.subperm_of_subset hnodup hsub).length_le
    simp only [List.length_map, List.length_range] at hlen
    omega

/-- C9: the suffix-probing loop of `_resolve_conflict` has no upper bound
on the suffix, but when the filesystem holds only finitely many paths
(here: the list `fs`), fuel `|fs| + 1` always suffices, i.e. resolution
terminates with a result for every input. -/
theorem resolve_conflict_terminates (fs : List String) (parent name : String) :
    ∃ p, resolve_conflict (fun q => decide (q ∈ fs)) parent name (fs.length + 1) = some p := by
  unfold resolve_conflict
  by_cases h : decide ((parent ++ "/" ++ name) ∈ fs) = true
  · rw [if_pos h]
    exact resolveLoop_total fs parent (stemOf name) (suffixOf name)
  · rw [if_neg h]
    exact ⟨_, rfl⟩

/-- C4: `_resolve_conflict` returns `parent/name` unchanged when that path
does not exist; otherwise it returns `stem_k.ext` for the smallest integer
`k ≥ 1` whose probe does not exist, and the returned path does not exist
at the moment of the check. -/
theorem resolve_conflict_first_free (fs : List String) (parent name : String) :
    ((parent ++ "/" ++ name) ∉ fs →
      resolve_conflict (fun q => decide (q ∈ fs)) parent name (fs.length + 1) =
        some (parent ++ "/" ++ name)) ∧
    ((parent ++ "/" ++ name) ∈ fs →
      ∃ k, 1 ≤ k ∧
        resolve_conflict (fun q => decide (q ∈ fs)) parent name (fs.length + 1) =
          some (probeName parent (stemOf name) (suffixOf name) k) ∧
        probeName parent (stemOf name) (suffixOf name) k ∉ fs ∧
        ∀ j, 1 ≤ j → j < k → probeName parent (stemOf name) (suffixOf name) j ∈ fs) := by
  constructor
  · intro h
    unfold resolve_conflict
    rw [if_neg (by simpa using h)]
  · intro h
    have hpos : decide ((parent ++ "/" ++ name) ∈ fs) = true := by simpa using h
    obtain ⟨p, hp⟩ := resolveLoop_total fs parent (stemOf name) (suffixOf name)
    obtain ⟨k, hk1, hk2, hk3, hk4⟩ := resolveLoop_some _ _ _ _ _ _ _ hp
    refine ⟨k, hk1, ?_, by simpa using hk3, fun j hj1 hj2 => by simpa using hk4 j hj1 hj2⟩
    unfold resolve_conflict
    rw [if_pos hpos, hp, hk2]

/-- Witness for C4: a fresh destination is returned unchanged, and with
`a.txt` and `a_1.txt` already present, resolving `a.txt` yields `a_2.txt`
(the smallest unused suffix). -/
theorem resolve_conflict_first_free_witness :
    resolve_conflict (fun q => decide (q ∈ ["d/b.txt"])) "d" "a.txt" 2 = some "d/a.txt" ∧
    resolve_conflict (fun q => decide (q ∈ ["d/a.txt", "d/a_1.txt"])) "d" "a.txt" 3 =
      some "d/a_2.txt" ∧
    ("d/a.txt" ∈ ["d/a.txt", "d/a_1.txt"] ∧ ∃ k, 1 ≤ k ∧
      resolve_conflict (fun q => decide (q ∈ ["d/a.txt", "d/a_1.txt"])) "d" "a.txt" 3 =
        some (probeName "d" (stemOf "a.txt") (suffixOf "a.txt") k) ∧
      probeName "d" (stemOf "a.txt") (suffixOf "a.txt") k ∉ ["d/a.txt", "d/a_1.txt"] ∧
      ∀ j, 1 ≤ j → j < k →
        probeName "d" (stemOf "a.txt") (suffixOf "a.txt") j ∈ ["d/a.txt", "d/a_1.txt"]) :=
  ⟨(resolve_conflict_first_free ["d/b.txt"] "d" "a.txt").1 (by decide),
   by decide,
   by decide,
   (resolve_conflict_first_free ["d/a.txt", "d/a_1.txt"] "d" "a.txt").2 (by decide)⟩

lemma lookupExt_mem : ∀ (l : List (String × List String)) (ext c : String),
    lookupExt l ext = some c → c ∈ l.map Prod.fst := by
  intro l
  induction l with
  | nil => intro ext c h; simp [lookupExt] at h
  | cons pr rest ih =>
    intro ext c h
    rw [show lookupExt (pr :: rest) ext =
          if ext ∈ pr.2 then some pr.1 else lookupExt rest ext from rfl] at h
    by_cases hm : ext ∈ pr.2
    · rw [if_pos hm] at h
      simp [← Option.some.inj h]
    · rw [if_neg hm] at h
      simp [ih ext c h]

lemma lookupExt_none : ∀ (l : List (String × List String)) (ext : String),
    (∀ pr ∈ l, ext ∉ pr.2) → lookupExt l ext = none := by
  intro l
  induction l with
  | nil => intro ext _; rfl
  | cons pr rest ih =>
    intro ext h
    rw [show lookupExt (pr :: rest) ext =
          if ext ∈ pr.2 then some pr.1 else lookupExt rest ext from rfl]
    rw [if_neg (h pr (by simp))]
    exact ih ext (fun q hq => h q (by simp [hq]))

lemma keywordMatch_mem : ∀ (l : List (String × List String)) (out c : String),
    keywordMatch l out = some c → c ∈ l.map Prod.fst := by
  intro l
  induction l with
  | nil => intro out c h; simp [keywordMatch] at h
  | cons pr rest ih =>
    intro out c h
    rw [show keywordMatch (pr :: rest) out =
          if pr.2.any (fun kw => containsSub (toLowerStr kw) out) then some pr.1
          else keywordMatch rest out from rfl] at h
    by_cases hm : pr.2.any (fun kw => containsSub (toLowerStr kw) out) = true
    · rw [if_pos hm] at h
      simp [← Option.some.inj h]
    · rw [if_neg hm] at h
      simp [ih out c h]

lemma keywordMatch_filter : ∀ (l : List (String × List String)) (out : String),
    keywordMatch l out =
      ((l.filter (fun e => e.2.any (fun kw => containsSub (toLowerStr kw) out))).head?).map
        Prod.fst := by
  intro l
  induction l with
  | nil => intro out; rfl
  | cons pr rest ih =>
    intro out
    rw [show keywordMatch (pr :: rest) out =
          if pr.2.any (fun kw => containsSub (toLowerStr kw) out) then some pr.1
          else keywordMatch rest out from rfl]
    by_cases hm : pr.2.any (fun kw => containsSub (toLowerStr kw) out) = true
    · rw [if_pos hm]
      simp [List.filter_cons, hm]
    · have hm' : pr.2.any (fun kw => containsSub (toLowerStr kw) out) = false := by
        simpa using hm
      rw [if_neg hm]
      simp [List.filter_cons, hm', ih out]

/-- C3: `classify` is total — it always returns a member of the closed
category set (and, being a Lean function, never raises) — and when the
content tier is inconclusive and the lower-cased extension is in no table
entry, the result is exactly `"Others"`. -/
theorem classify_total (sniffOut : Option String) (path : String) :
    classify sniffOut path ∈ categoryNames ∧
    (get_category_by_file_command sniffOut = none →
      (∀ pr ∈ EXTENSION_MAP, toLowerStr (suffixOf path) ∉ pr.2) →
      classify sniffOut path = "Others") := by
  constructor
  · unfold classify
    cases hc : get_category_by_file_command sniffOut with
    | some c =>
      show c ∈ categoryNames
      have hmem : c ∈ FILE_TYPE_KEYWORDS.map Prod.fst := by
        unfold get_category_by_file_command at hc
        cases sniffOut with
        | none => simp at hc
        | some raw => exact keywordMatch_mem _ _ _ hc
      simp only [FILE_TYPE_KEYWORDS, List.map_cons, List.map_nil, List.mem_cons,
        List.not_mem_nil, or_false] at hmem
      rcases hmem with rfl | rfl | rfl | rfl | rfl | rfl | rfl <;> decide
    | none =>
      show get_category_by_extension (toLowerStr (suffixOf path)) ∈ categoryNames
      unfold get_category_by_extension
      cases hl : lookupExt EXTENSION_MAP (toLowerStr (suffixOf path)) with
      | some c =>
        have hmem := lookupExt_mem _ _ _ hl
        simp only [EXTENSION_MAP, List.map_cons, List.map_nil, List.mem_cons,
          List.not_mem_nil, or_false] at hmem
        simp only [Option.getD_some]
        rcases hmem with rfl | rfl | rfl | rfl | rfl | rfl | rfl | rfl <;> decide
      | none => decide
  · intro h1 h2
    unfold classify
    rw [h1]
    unfold get_category_by_extension
    rw [lookupExt_none _ _ h2]
    rfl

/-- Witness for C3: an unknown extension with an inconclusive sniff yields
exactly `"Others"`, a member of the closed category set. -/
theorem classify_total_witness :
    get_category_by_file_command none = none ∧
    (∀ pr ∈ EXTENSION_MAP, toLowerStr (suffixOf "t/archive.xyz") ∉ pr.2) ∧
    classify none "t/archive.xyz" ∈ categoryNames ∧
    classify none "t/archive.xyz" = "Others" :=
  ⟨by decide, by decide, (classify_total none "t/archive.xyz").1,
   (classify_total none "t/archive.xyz").2 (by decide) (by decide)⟩

/-- C5: content classification is first-match-wins in the declared order:
the key order of `FILE_TYPE_KEYWORDS` is exactly {Executables, Documents,
Archives, Images, Videos, Music, Code}, and for every available output the
result is the first table entry (in that order) one of whose lower-cased
keywords occurs in the lower-cased output — so an output matching two
categories yields the earlier-declared one. -/
theorem keyword_first_match_wins :
    FILE_TYPE_KEYWORDS.map Prod.fst =
      ["Executables", "Documents", "Archives", "Images", "Videos", "Music", "Code"] ∧
    ∀ out, get_category_by_file_command (some out) =
      ((FILE_TYPE_KEYWORDS.filter
        (fun e => e.2.any (fun kw => containsSub (toLowerStr kw) (toLowerStr out)))).head?).map
        Prod.fst := by
  refine ⟨rfl, fun out => ?_⟩
  unfold get_category_by_file_command
  exact keywordMatch_filter FILE_TYPE_KEYWORDS (toLowerStr out)

/-- C10: the content tier yields either `none` (inconclusive) or one of
the seven keyword-table categories; since `"Others"` has no keyword set,
it can only ever be produced by the extension fallback. -/
theorem content_tier_closed_categories (sniffOut : Option String) :
    get_category_by_file_command sniffOut = none ∨
    ∃ c, get_category_by_file_command sniffOut = some c ∧
      c ∈ ["Executables", "Documents", "Archives", "Images", "Videos", "Music", "Code"] := by
  cases hc : get_category_by_file_command sniffOut with
  | none => exact Or.inl rfl
  | some c =>
    refine Or.inr ⟨c, rfl, ?_⟩
    unfold get_category_by_file_command at hc
    cases sniffOut with
    | none => simp at hc
    | some raw =>
      have hmem := keywordMatch_mem _ _ _ hc
      have h7 : FILE_TYPE_KEYWORDS.map Prod.fst =
          ["Executables", "Documents", "Archives", "Images", "Videos", "Music", "Code"] := rfl
      rw [h7] at hmem
      exact hmem

/-- C2: the dry-run flag influences only the effect, never the decision:
for a fixed snapshot and fixed sniff oracle, processing a regular file in
dry-run mode and in apply mode names the identical destination path in the
emitted record, and the two modes fail in exactly the same cases. -/
theorem mode_independent_destination (sniff : String → Option String)
    (targetDir : String) (fs : FS) (filePath : String)
    (h : filePath ∈ fs.files) :
    destOfLog (process_file sniff true targetDir fs filePath).log =
      destOfLog (process_file sniff false targetDir fs filePath).log ∧
    (process_file sniff true targetDir fs filePath).err =
      (process_file sniff false targetDir fs filePath).err := by
  unfold process_file
  by_cases hh : startsWithDot (baseName filePath) = true
  · simp [hh]
  · have hh' : startsWithDot (baseName filePath) = false := by simpa using hh
    simp only [hh', Bool.false_eq_true, if_false]
    by_cases hdf : (targetDir ++ "/" ++ classify (sniff filePath) filePath) ∈ fs.files
    · simp [hdf]
    · simp only [hdf, if_false]
      cases hr : resolve_conflict
          (FS.existsPath
            (if (targetDir ++ "/" ++ classify (sniff filePath) filePath) ∈ fs.dirs then fs
             else ⟨fs.files, (targetDir ++ "/" ++ classify (sniff filePath) filePath) :: fs.dirs⟩))
          (targetDir ++ "/" ++ classify (sniff filePath) filePath) (baseName filePath)
          ((if (targetDir ++ "/" ++ classify (sniff filePath) filePath) ∈ fs.dirs then fs
            else ⟨fs.files, (targetDir ++ "/" ++ classify (sniff filePath) filePath) :: fs.dirs⟩).files.length +
           (if (targetDir ++ "/" ++ classify (sniff filePath) filePath) ∈ fs.dirs then fs
            else ⟨fs.files, (targetDir ++ "/" ++ classify (sniff filePath) filePath) :: fs.dirs⟩).dirs.length + 1) with
      | none => simp [hr]
      | some newPath =>
        simp only [hr]
        have hf1 : filePath ∈
            (if (targetDir ++ "/" ++ classify (sniff filePath) filePath) ∈ fs.dirs then fs
             else ⟨fs.files, (targetDir ++ "/" ++ classify (sniff filePath) filePath) :: fs.dirs⟩).files := by
          split
          · exact h
          · exact h
        simp only [if_pos hf1, if_true]
        cases sniff filePath <;> simp [destOfLog]

/-- Witness for C2: on a concrete snapshot both modes name the same
destination, `t/Documents/a.txt`. -/
theorem mode_independent_destination_witness :
    "t/a.txt" ∈ (⟨["t/a.txt"], ["t"]⟩ : FS).files ∧
    destOfLog (process_file (fun _ => some "data") true "t" ⟨["t/a.txt"], ["t"]⟩ "t/a.txt").log =
      destOfLog (process_file (fun _ => some "data") false "t" ⟨["t/a.txt"], ["t"]⟩ "t/a.txt").log ∧
    destOfLog (process_file (fun _ => some "data") true "t" ⟨["t/a.txt"], ["t"]⟩ "t/a.txt").log =
      some "t/Documents/a.txt" :=
  ⟨by decide,
   (mode_independent_destination (fun _ => some "data") "t" ⟨["t/a.txt"], ["t"]⟩ "t/a.txt"
     (by decide)).1,
   by decide⟩

/-- Counterexample to C1 as stated: in dry-run mode `_process_file` still
executes `destination_folder.mkdir(exist_ok=True)` (line 84) before the
dry-run branch (line 88), so processing `t/a.txt` on a snapshot without a
`t/Documents` folder mutates the filesystem: the category folder is
created. -/
theorem dry_run_creates_folder_cex :
    (process_file (fun _ => some "data") true "t" ⟨["t/a.txt"], ["t"]⟩ "t/a.txt").fs ≠
      (⟨["t/a.txt"], ["t"]⟩ : FS) ∧
    (process_file (fun _ => some "data") true "t" ⟨["t/a.txt"], ["t"]⟩ "t/a.txt").fs.dirs =
      ["t/Documents", "t"] := by
  constructor
  · decide
  · decide

/-- C1 as amended: in dry-run mode no file is ever moved (the file list is
unchanged in every case), the only possible filesystem mutation is the
creation of the destination category folder when it is absent, and when
the step completes without error the log is exactly the would-be-move
record, preceded by a sniff warning when the content sniff failed. -/
theorem dry_run_moves_no_file (sniff : String → Option String)
    (targetDir : String) (fs : FS) (filePath : String)
    (h : startsWithDot (baseName filePath) = false) :
    (process_file sniff true targetDir fs filePath).fs.files = fs.files ∧
    ((process_file sniff true targetDir fs filePath).fs.dirs = fs.dirs ∨
      (process_file sniff true targetDir fs filePath).fs.dirs =
        (targetDir ++ "/" ++ classify (sniff filePath) filePath) :: fs.dirs) ∧
    ((process_file sniff true targetDir fs filePath).err = false →
      ∃ d, (process_file sniff true targetDir fs filePath).log =
        (match sniff filePath with
         | none => [LogRecord.warnSniff (baseName filePath)]
         | some _ => []) ++ [.dryRunMove (baseName filePath) d]) := by
  unfold process_file
  simp only [h, Bool.false_eq_true, if_false]
  by_cases hdf : (targetDir ++ "/" ++ classify (sniff filePath) filePath) ∈ fs.files
  · simp [hdf]
  · simp only [hdf, if_false]
    cases hr : resolve_conflict
        (FS.existsPath
          (if (targetDir ++ "/" ++ classify (sniff filePath) filePath) ∈ fs.dirs then fs
           else ⟨fs.files, (targetDir ++ "/" ++ classify (sniff filePath) filePath) :: fs.dirs⟩))
        (targetDir ++ "/" ++ classify (sniff filePath) filePath) (baseName filePath)
        ((if (targetDir ++ "/" ++ classify (sniff filePath) filePath) ∈ fs.dirs then fs
          else ⟨fs.files, (targetDir ++ "/" ++ classify (sniff filePath) filePath) :: fs.dirs⟩).files.length +
         (if (targetDir ++ "/" ++ classify (sniff filePath) filePath) ∈ fs.dirs then fs
          else ⟨fs.files, (targetDir ++ "/" ++ classify (sniff filePath) filePath) :: fs.dirs⟩).dirs.length + 1) with
    | none =>
      simp only [hr]
      refine ⟨by split <;> rfl, ?_, by intro hc; simp at hc⟩
      split
      · exact Or.inl rfl
      · exact Or.inr rfl
    | some newPath =>
      simp only [hr, eq_self_iff_true, if_true]
      refine ⟨by split <;> rfl, ?_, ?_⟩
      · split
        · exact Or.inl rfl
        · exact Or.inr rfl
      · intro _
        exact ⟨newPath, rfl⟩

/-- Witness for the amended C1: a concrete dry run leaves the file list
untouched, creates only the category folder, and logs the would-be move. -/
theorem dry_run_moves_no_file_witness :
    startsWithDot (baseName "t/a.txt") = false ∧
    (process_file (fun _ => some "data") true "t" ⟨["t/a.txt"], ["t"]⟩ "t/a.txt").fs.files =
      (⟨["t/a.txt"], ["t"]⟩ : FS).files ∧
    ((process_file (fun _ => some "data") true "t" ⟨["t/a.txt"], ["t"]⟩ "t/a.txt").fs.dirs =
        (⟨["t/a.txt"], ["t"]⟩ : FS).dirs ∨
      (process_file (fun _ => some "data") true "t" ⟨["t/a.txt"], ["t"]⟩ "t/a.txt").fs.dirs =
        ("t" ++ "/" ++ classify ((fun _ => some "data") "t/a.txt") "t/a.txt") ::
          (⟨["t/a.txt"], ["t"]⟩ : FS).dirs) ∧
    ∃ d, (process_file (fun _ => some "data") true "t" ⟨["t/a.txt"], ["t"]⟩ "t/a.txt").log =
      (match (fun (_ : String) => some "data") "t/a.txt" with
       | none => [LogRecord.warnSniff (baseName "t/a.txt")]
       | some _ => []) ++ [.dryRunMove (baseName "t/a.txt") d] :=
  ⟨by decide,
   (dry_run_moves_no_file (fun _ => some "data") "t" ⟨["t/a.txt"], ["t"]⟩ "t/a.txt" (by decide)).1,
   (dry_run_moves_no_file (fun _ => some "data") "t" ⟨["t/a.txt"], ["t"]⟩ "t/a.txt" (by decide)).2.1,
   (dry_run_moves_no_file (fun _ => some "data") "t" ⟨["t/a.txt"], ["t"]⟩ "t/a.txt"
     (by decide)).2.2 (by decide)⟩

/-- C8: a file whose name starts with a period is never classified or
moved: the step returns the filesystem unchanged with only the skip
record, with no error — and the result does not depend on the sniff
oracle at all (the right-hand side never consults it), so no content
sniff or extension lookup influences the outcome. -/
theorem hidden_file_skipped (sniff : String → Option String) (dryRun : Bool)
    (targetDir : String) (fs : FS) (filePath : String)
    (h : startsWithDot (baseName filePath) = true) :
    process_file sniff dryRun targetDir fs filePath =
      ⟨fs, [.skipHidden (baseName filePath)], false⟩ := by
  unfold process_file
  simp [h]

/-- Witness for C8: `.secret` is skipped untouched. -/
theorem hidden_file_skipped_witness :
    startsWithDot (baseName "t/.secret") = true ∧
    process_file (fun _ => some "ASCII text") false "t" ⟨["t/.secret"], ["t"]⟩ "t/.secret" =
      ⟨⟨["t/.secret"], ["t"]⟩, [.skipHidden ".secret"], false⟩ :=
  ⟨by decide,
   (hidden_file_skipped (fun _ => some "ASCII text") false "t" ⟨["t/.secret"], ["t"]⟩
     "t/.secret" (by decide)).trans (by decide)⟩

/-- C7: when the target is not an existing directory, `organize` logs a
single error record and returns with the filesystem unchanged; being a
total function, it propagates no exception to its caller. -/
theorem organize_precondition_failure (sniff : String → Option String) (dryRun : Bool)
    (targetDir : String) (fs : FS) (h : targetDir ∉ fs.dirs) :
    organize sniff dryRun targetDir fs = (fs, [.errorTarget targetDir]) := by
  unfold organize
  rw [if_pos (Or.inr h)]

/-- Witness for C7: a missing target directory. -/
theorem organize_precondition_failure_witness :
    "nope" ∉ (⟨["a.txt"], ["t"]⟩ : FS).dirs ∧
    organize (fun _ => none) false "nope" ⟨["a.txt"], ["t"]⟩ =
      (⟨["a.txt"], ["t"]⟩, [.errorTarget "nope"]) :=
  ⟨by decide,
   organize_precondition_failure (fun _ => none) false "nope" ⟨["a.txt"], ["t"]⟩ (by decide)⟩

/-- C6: per-file fault isolation. The loop over any enumeration decomposes
around any middle entry `b`: the entries before `b` produce their result
unchanged, `b` contributes exactly its own step (whether or not it
failed), and every entry after `b` is still processed, starting from the
state `b` left behind — nothing below the per-file boundary terminates the
run. Moreover a failing step is logged: when processing `b` raises, the
step emits the step's records followed by the failure record. -/
theorem per_file_fault_isolation (sniff : String → Option String) (dryRun : Bool)
    (targetDir : String) (pre : List String) (b : String) (post : List String) (fs : FS) :
    organize_loop sniff dryRun targetDir (pre ++ b :: post) fs =
      (let r1 := organize_loop sniff dryRun targetDir pre fs
       let rb := organize_step sniff dryRun targetDir r1.1 b
       let r2 := organize_loop sniff dryRun targetDir post rb.1
       (r2.1, r1.2 ++ rb.2 ++ r2.2)) ∧
    (b ∈ fs.files → (process_file sniff dryRun targetDir fs b).err = true →
      organize_step sniff dryRun targetDir fs b =
        ((process_file sniff dryRun targetDir fs b).fs,
          (process_file sniff dryRun targetDir fs b).log ++ [.failed b])) := by
  constructor
  · induction pre generalizing fs with
    | nil => simp [organize_loop]
    | cons e rest ih =>
      simp only [List.cons_append, organize_loop, List.append_eq, ih]
      simp [List.append_assoc]
  · intro hb herr
    unfold organize_step
    rw [if_pos hb]
    simp [herr]

/-- Witness for C6: a file named `t/Documents` makes `mkdir` of the
category folder raise for `t/x.txt`; the step is contained and logged as a
failure. -/
theorem per_file_fault_isolation_witness :
    "t/x.txt" ∈ (⟨["t/x.txt", "t/Documents"], ["t"]⟩ : FS).files ∧
    (process_file (fun _ => some "data") false "t" ⟨["t/x.txt", "t/Documents"], ["t"]⟩
      "t/x.txt").err = true ∧
    organize_step (fun _ => some "data") false "t" ⟨["t/x.txt", "t/Documents"], ["t"]⟩
        "t/x.txt" =
      ((process_file (fun _ => some "data") false "t" ⟨["t/x.txt", "t/Documents"], ["t"]⟩
          "t/x.txt").fs,
        (process_file (fun _ => some "data") false "t" ⟨["t/x.txt", "t/Documents"], ["t"]⟩
          "t/x.txt").log ++ [.failed "t/x.txt"]) :=
  ⟨by decide, by decide,
   (per_file_fault_isolation (fun _ => some "data") false "t" [] "t/x.txt" []
     ⟨["t/x.txt", "t/Documents"], ["t"]⟩).2 (by decide) (by decide)⟩
